import Mathlib

/-!
Verification of the `modtransplant` go.mod merge tool (src/main.go).

The development shallowly embeds the three merge passes (`mergeRequires`,
`mergeReplacements`, `mergeExcludes`), the `canCompare` helper, the parts of
the `golang.org/x/mod/modfile` mutation API the tool calls (`DropRequire`,
`AddNewRequire`, `DropReplace`, `AddReplace`, `AddExclude`, `Cleanup`), and
the external `Masterminds/semver` v1 comparison primitive
(`NewVersion` / `Compare` / `LessThan` / `Prerelease`).
-/

namespace Modtransplant

/-- `module.Version` from golang.org/x/mod/module: a module path and a
version string (the version may be empty). -/
structure ModVersion where
  path : String
  version : String
deriving DecidableEq

/-- `module.Version.String()`: the path alone when the version is empty,
otherwise `path@version`. -/
def ModVersion.string (m : ModVersion) : String :=
  if m.version = "" then m.path else m.path ++ "@" ++ m.version

/-- `modfile.Require`: a required module with its indirect flag. -/
structure Require where
  mod : ModVersion
  indirect : Bool
deriving DecidableEq

/-- `modfile.Replace`: a replace directive redirecting `old` to `new`. -/
structure Replace where
  old : ModVersion
  new : ModVersion
deriving DecidableEq

/-- `modfile.Exclude`: an excluded module coordinate. -/
structure Exclude where
  mod : ModVersion
deriving DecidableEq

/-- The parts of `modfile.File` the merge passes use: the file's own module
identity and its require, replace and exclude lists. -/
structure ModFile where
  module : ModVersion
  require : List Require
  replace : List Replace
  exclude : List Exclude
deriving DecidableEq

/-! ### Model of the external semantic-version collaborator

The spec places the semantic-version primitive out of scope ("parses a
version string, tells the caller whether one version is less than another,
and exposes whether a version carries a pre-release tag"). The model below
follows the library the source imports, `Masterminds/semver` v1:
`NewVersion` (anchored regex `v?NUM(.NUM)?(.NUM)?(-PRE)?(+META)?`),
`Compare`, `LessThan` and `Prerelease`. -/

/-- A parsed semantic version: numeric core plus pre-release and metadata
strings (`semver.Version`). -/
structure SemVer where
  major : Nat
  minor : Nat
  patch : Nat
  pre : String
  metadata : String
deriving DecidableEq

/-- Digits of a decimal numeral to its value. -/
def digitsToNat (l : List Char) : Nat :=
  l.foldl (fun n c => n * 10 + (c.toNat - '0'.toNat)) 0

/-- Split a character list at the first occurrence of `c`; the second
component is `none` when `c` does not occur. -/
def breakAtFirst (c : Char) : List Char → List Char × Option (List Char)
  | [] => ([], none)
  | a :: rest =>
    if a = c then ([], some rest)
    else
      let (b, r) := breakAtFirst c rest
      (a :: b, r)

/-- Split a character list on every occurrence of `c`
(the semantics of Go `strings.Split`). -/
def splitOnCh (c : Char) : List Char → List (List Char)
  | [] => [[]]
  | a :: rest =>
    let parts := splitOnCh c rest
    if a = c then [] :: parts
    else
      match parts with
      | [] => [[a]]
      | p :: ps => (a :: p) :: ps

/-- One dot-separated pre-release or metadata segment: nonempty, made of
ASCII alphanumerics and hyphens. -/
def validPreSegment (l : List Char) : Bool :=
  !l.isEmpty && l.all fun c => c.isAlphanum || c = '-'

/-- A full pre-release or metadata tail: every dot-separated segment valid. -/
def validPre (l : List Char) : Bool :=
  (splitOnCh '.' l).all validPreSegment

/-- A numeric core segment parsed with `strconv.ParseInt(_, 10, 64)`:
nonempty, all digits, value within int64 range. -/
def parseNumSegment (l : List Char) : Option Nat :=
  if !l.isEmpty && l.all Char.isDigit then
    let n := digitsToNat l
    if n < 2 ^ 63 then some n else none
  else none

/-- The contents of an optional parsed tail as a string. -/
def strOfPart : Option (List Char) → String
  | none => ""
  | some l => ⟨l⟩

/-- `semver.NewVersion`: optional leading `v`, 1–3 dot-separated numeric
segments, optional `-` pre-release tail, optional `+` metadata tail.
Returns `none` exactly when the library would return `ErrInvalidSemVer`. -/
def newVersion (s : String) : Option SemVer :=
  let l :=
    match s.data with
    | 'v' :: rest => rest
    | l => l
  let (beforePlus, metaPart) := breakAtFirst '+' l
  let metaOk :=
    match metaPart with
    | none => true
    | some m => validPre m
  if metaOk then
    let (core, prePart) := breakAtFirst '-' beforePlus
    let preOk :=
      match prePart with
      | none => true
      | some p => validPre p
    if preOk then
      match (splitOnCh '.' core).map parseNumSegment with
      | [some maj] => some ⟨maj, 0, 0, strOfPart prePart, strOfPart metaPart⟩
      | [some maj, some mino] => some ⟨maj, mino, 0, strOfPart prePart, strOfPart metaPart⟩
      | [some maj, some mino, some pat] =>
          some ⟨maj, mino, pat, strOfPart prePart, strOfPart metaPart⟩
      | _ => none
    else none
  else none

/-- `strconv.ParseUint(_, 10, 64)` on a pre-release segment: succeeds on
nonempty all-digit input within uint64 range. -/
def parseUint64 (l : List Char) : Option Nat :=
  if !l.isEmpty && l.all Char.isDigit && digitsToNat l < 2 ^ 64 then
    some (digitsToNat l)
  else none

/-- Go lexicographic `<` on strings, on the character lists. -/
def charListLt : List Char → List Char → Bool
  | [], [] => false
  | [], _ :: _ => true
  | _ :: _, [] => false
  | a :: as, b :: bs => if a < b then true else if b < a then false else charListLt as bs

/-- `semver` v1 `comparePrePart`: compare one dot-segment of two pre-release
tails, numeric segments numerically and below alphanumeric ones. -/
def comparePrePart (s o : List Char) : Int :=
  if s = o then 0
  else if s = [] then (if o ≠ [] then -1 else 1)
  else if o = [] then (if s ≠ [] then 1 else -1)
  else
    match parseUint64 o, parseUint64 s with
    | none, none => if charListLt o s then 1 else -1
    | none, some _ => -1
    | some _, none => 1
    | some oi, some si => if si > oi then 1 else if si < oi then -1 else 0

/-- `semver` v1 `comparePrerelease` inner loop: walk the two segment lists,
padding the shorter with empty segments. -/
def comparePreParts : List (List Char) → List (List Char) → Int
  | [], [] => 0
  | [], o :: os =>
    let d := comparePrePart [] o
    if d ≠ 0 then d else comparePreParts [] os
  | s :: ss, [] =>
    let d := comparePrePart s []
    if d ≠ 0 then d else comparePreParts ss []
  | s :: ss, o :: os =>
    let d := comparePrePart s o
    if d ≠ 0 then d else comparePreParts ss os

/-- `semver` v1 `comparePrerelease`: split both tails on dots and compare. -/
def comparePrerelease (v o : String) : Int :=
  comparePreParts (splitOnCh '.' v.data) (splitOnCh '.' o.data)

/-- `semver` v1 `compareSegment` on one numeric component. -/
def compareSegment (v o : Nat) : Int :=
  if v < o then -1 else if v > o then 1 else 0

/-- `semver.Version.Compare`: majors, minors, patches, then pre-release
(a version without a pre-release tag is higher); metadata is ignored. -/
def compareVersion (v o : SemVer) : Int :=
  let d := compareSegment v.major o.major
  if d ≠ 0 then d
  else
    let d := compareSegment v.minor o.minor
    if d ≠ 0 then d
    else
      let d := compareSegment v.patch o.patch
      if d ≠ 0 then d
      else
        if v.pre = "" && o.pre = "" then 0
        else if v.pre = "" then 1
        else if o.pre = "" then -1
        else comparePrerelease v.pre o.pre

/-- `semver.Version.LessThan`. -/
def lessThan (v o : SemVer) : Bool :=
  compareVersion v o < 0

/-- `canCompare` (main.go lines 215–217): two parsed versions are comparable
when both carry no pre-release tag or both carry one. -/
def canCompare (a b : SemVer) : Bool :=
  (a.pre == "" && b.pre == "") || (a.pre != "" && b.pre != "")

/-! ### The modfile mutation operations the tool calls -/

/-- `modfile.File.DropRequire`: zero out every require entry whose path
matches (the zeroed entries are removed by `Cleanup`); never errors. -/
def dropRequire (f : ModFile) (path : String) : ModFile :=
  { f with require := f.require.map fun r =>
      if r.mod.path = path then ⟨⟨"", ""⟩, false⟩ else r }

/-- `modfile.File.AddNewRequire`: unconditionally append a require line. -/
def addNewRequire (f : ModFile) (path vers : String) (indirect : Bool) : ModFile :=
  { f with require := f.require ++ [⟨⟨path, vers⟩, indirect⟩] }

/-- `modfile.File.DropReplace`: zero out every replace entry whose old
coordinate matches exactly; never errors. -/
def dropReplace (f : ModFile) (oldPath oldVers : String) : ModFile :=
  { f with replace := f.replace.map fun r =>
      if r.old.path = oldPath ∧ r.old.version = oldVers then ⟨⟨"", ""⟩, ⟨"", ""⟩⟩ else r }

/-- The scan inside `modfile.File.AddReplace`: update the first entry whose
old coordinate matches (any old version matches when `old.version` is
empty), zero out later duplicates; `need` reports whether an append is
still required. -/
def addReplaceLoop (old' new' : ModVersion) :
    List Replace → Bool → List Replace × Bool
  | [], need => ([], need)
  | r :: rest, need =>
    if r.old.path = old'.path ∧ (old'.version = "" ∨ r.old.version = old'.version) then
      if need then
        let (rest', need') := addReplaceLoop old' new' rest false
        ({ r with new := new' } :: rest', need')
      else
        let (rest', need') := addReplaceLoop old' new' rest need
        (⟨⟨"", ""⟩, ⟨"", ""⟩⟩ :: rest', need')
    else
      let (rest', need') := addReplaceLoop old' new' rest need
      (r :: rest', need')

/-- `modfile.File.AddReplace`: add-or-update a replace directive. -/
def addReplace (f : ModFile) (oldPath oldVers newPath newVers : String) : ModFile :=
  let (rs, need) := addReplaceLoop ⟨oldPath, oldVers⟩ ⟨newPath, newVers⟩ f.replace true
  if need then { f with replace := rs ++ [⟨⟨oldPath, oldVers⟩, ⟨newPath, newVers⟩⟩] }
  else { f with replace := rs }

/-- `modfile.File.AddExclude`: append the exclusion unless an entry with the
same path and version already exists. -/
def addExclude (f : ModFile) (path vers : String) : ModFile :=
  if f.exclude.any fun x => x.mod.path = path ∧ x.mod.version = vers then f
  else { f with exclude := f.exclude ++ [⟨⟨path, vers⟩⟩] }

/-- `modfile.File.Cleanup`: drop the zeroed (removed) entries. -/
def cleanup (f : ModFile) : ModFile :=
  { f with
    require := f.require.filter fun r => r.mod.path ≠ ""
    replace := f.replace.filter fun r => r.old.path ≠ ""
    exclude := f.exclude.filter fun x => x.mod.path ≠ "" }

/-! ### The three merge passes (src/main.go) -/

/-- The body of the path-match branch of `mergeRequires` (main.go lines
102–129): reconcile one destination entry against one source entry —
version overwrite / irreconcilable-version error when the versions differ,
then the literal indirect-flag condition of line 125. -/
def reconcileRequire (srcR destR : Require) (forceOverwrite : Bool) :
    Except String Require :=
  let step1 : Except String Require :=
    if srcR.mod.version = destR.mod.version then .ok destR
    else
      match newVersion destR.mod.version, newVersion srcR.mod.version with
      | some destVersion, some srcVersion =>
        if forceOverwrite then
          .ok { destR with mod := { destR.mod with version := srcR.mod.version } }
        else if canCompare destVersion srcVersion = false then
          .error ("cannot reconcile difference between versions: dest=" ++
            destR.mod.string ++ " src=" ++ srcR.mod.string)
        else if lessThan srcVersion destVersion then
          .ok { destR with mod := { destR.mod with version := srcR.mod.version } }
        else .ok destR
      | _, _ => .error "Invalid Semantic Version"
  match step1 with
  | .error e => .error e
  | .ok d1 =>
    .ok (if d1.indirect ≠ !srcR.indirect then { d1 with indirect := srcR.indirect } else d1)

/-- The inner scan of `mergeRequires` over the destination require list:
stop with `found` on an exact coordinate match, reconcile on a bare path
match, leave other entries alone. -/
def scanRequire (srcR : Require) (forceOverwrite : Bool) :
    List Require → Except String (List Require × Bool)
  | [] => .ok ([], false)
  | destR :: rest =>
    if srcR.mod.string = destR.mod.string then .ok (destR :: rest, true)
    else if srcR.mod.path = destR.mod.path then
      match reconcileRequire srcR destR forceOverwrite with
      | .error e => .error e
      | .ok destR' =>
        match scanRequire srcR forceOverwrite rest with
        | .error e => .error e
        | .ok (rest', found) => .ok (destR' :: rest', found)
    else
      match scanRequire srcR forceOverwrite rest with
      | .error e => .error e
      | .ok (rest', found) => .ok (destR :: rest', found)

/-- The outer loop of `mergeRequires`: scan each source entry against the
current destination list and append it when no exact match was found. -/
def mergeRequiresLoop (forceOverwrite : Bool) :
    List Require → List Require → Except String (List Require)
  | [], destReqs => .ok destReqs
  | srcR :: srcRest, destReqs =>
    match scanRequire srcR forceOverwrite destReqs with
    | .error e => .error e
    | .ok (destReqs', found) =>
      let destReqs'' :=
        if found then destReqs'
        else destReqs' ++ [⟨⟨srcR.mod.path, srcR.mod.version⟩, srcR.indirect⟩]
      mergeRequiresLoop forceOverwrite srcRest destReqs''

/-- `mergeRequires` (main.go lines 89–139): drop the destination's
self-requirement on the source module, then merge the source entries. -/
def mergeRequires (dest src : ModFile) (forceOverwrite : Bool) :
    Except String ModFile :=
  let dest := dropRequire dest src.module.path
  match mergeRequiresLoop forceOverwrite src.require dest.require with
  | .error e => .error e
  | .ok reqs => .ok { dest with require := reqs }

/-- The inner scan of `mergeReplacements`: `found` on an exact old-coordinate
match; the conflict error on an old path-and-version match whose new target
differs. -/
def scanReplace (srcR : Replace) : List Replace → Except String Bool
  | [] => .ok false
  | destR :: rest =>
    if srcR.old.string = destR.old.string then .ok true
    else if srcR.old.path = destR.old.path ∧ srcR.old.version = destR.old.version then
      if srcR.new.path ≠ destR.new.path ∨ srcR.new.version ≠ destR.new.version then
        .error "(replace) source and destination old path/version match, but new path/version do not"
      else scanReplace srcR rest
    else scanReplace srcR rest

/-- The outer loop of `mergeReplacements`. -/
def mergeReplacementsLoop : List Replace → ModFile → Except String ModFile
  | [], dest => .ok dest
  | srcR :: rest, dest =>
    match scanReplace srcR dest.replace with
    | .error e => .error e
    | .ok found =>
      let dest :=
        if found then dest
        else addReplace dest srcR.old.path srcR.old.version srcR.new.path srcR.new.version
      mergeReplacementsLoop rest dest

/-- `mergeReplacements` (main.go lines 150–184): drop every destination
replacement of the source module, then merge the source directives. -/
def mergeReplacements (dest src : ModFile) : Except String ModFile :=
  let dropVersions := (dest.replace.filter fun r => r.old.path = src.module.path).map (·.old)
  let dest := dropVersions.foldl (fun d v => dropReplace d v.path v.version) dest
  mergeReplacementsLoop src.replace dest

/-- The loop of `mergeExcludes`: add each source exclusion absent (by exact
coordinate string) from the current destination list. -/
def mergeExcludesLoop : List Exclude → ModFile → Except String ModFile
  | [], dest => .ok dest
  | srcE :: rest, dest =>
    let dest :=
      if dest.exclude.any fun destE => srcE.mod.string = destE.mod.string then dest
      else addExclude dest srcE.mod.path srcE.mod.version
    mergeExcludesLoop rest dest

/-- `mergeExcludes` (main.go lines 188–206); the Go function's error result
is always nil. -/
def mergeExcludes (dest src : ModFile) : Except String ModFile :=
  mergeExcludesLoop src.exclude dest

/-- The merge pipeline of `run` after parsing (main.go lines 60–70):
the three passes followed by `Cleanup`. -/
def runMerge (dest src : ModFile) (forceOverwrite : Bool) : Except String ModFile :=
  match mergeRequires dest src forceOverwrite with
  | .error e => .error e
  | .ok dest =>
    match mergeReplacements dest src with
    | .error e => .error e
    | .ok dest =>
      match mergeExcludes dest src with
      | .error e => .error e
      | .ok dest => .ok (cleanup dest)

/-! ### Helper lemmas -/

theorem append_at_char_inj {l1 l2 r1 r2 : List Char}
    (h1 : '@' ∉ l1) (h2 : '@' ∉ l2)
    (h : l1 ++ '@' :: r1 = l2 ++ '@' :: r2) : l1 = l2 ∧ r1 = r2 := by
  induction l1 generalizing l2 with
  | nil =>
    cases l2 with
    | nil => simpa using h
    | cons b bs =>
      simp only [List.nil_append, List.cons_append, List.cons.injEq] at h
      rcases h with ⟨hb, -⟩
      subst hb
      exact absurd (List.mem_cons_self _ _) h2
  | cons a as ih =>
    cases l2 with
    | nil =>
      simp only [List.cons_append, List.nil_append, List.cons.injEq] at h
      rcases h with ⟨hb, -⟩
      subst hb
      exact absurd (List.mem_cons_self _ _) h1
    | cons b bs =>
      simp only [List.cons_append, List.cons.injEq] at h
      obtain ⟨hab, ht⟩ := h
      have h1' : '@' ∉ as := fun hm => h1 (List.mem_cons_of_mem _ hm)
      have h2' : '@' ∉ bs := fun hm => h2 (List.mem_cons_of_mem _ hm)
      obtain ⟨he, hr⟩ := ih h1' h2' ht
      exact ⟨by rw [hab, he], hr⟩

theorem modVersionString_inj {p1 v1 p2 v2 : String}
    (h1 : '@' ∉ p1.data) (h2 : '@' ∉ p2.data)
    (h : ModVersion.string ⟨p1, v1⟩ = ModVersion.string ⟨p2, v2⟩) :
    p1 = p2 ∧ v1 = v2 := by
  unfold ModVersion.string at h
  by_cases e1 : v1 = "" <;> by_cases e2 : v2 = "" <;> simp only [e1, e2, if_pos, if_neg,
    if_true, if_false, reduceIte] at h
  · exact ⟨h, e1.trans e2.symm⟩
  · exfalso
    apply h1
    rw [h, String.data_append, String.data_append]
    simp
  · exfalso
    apply h2
    rw [← h, String.data_append, String.data_append]
    simp
  · rw [String.ext_iff, String.data_append, String.data_append] at h
    have h' : p1.data ++ '@' :: v1.data = p2.data ++ '@' :: v2.data := by
      simpa [List.append_assoc] using h
    obtain ⟨hp, hv⟩ := append_at_char_inj h1 h2 h'
    exact ⟨String.ext hp, String.ext hv⟩

theorem modVersionString_ne {m1 m2 : ModVersion}
    (h1 : '@' ∉ m1.path.data) (h2 : '@' ∉ m2.path.data)
    (hp : m1.path ≠ m2.path) : m1.string ≠ m2.string := by
  intro h
  obtain ⟨hp', -⟩ := @modVersionString_inj m1.path m1.version
    m2.path m2.version h1 h2 (by cases m1; cases m2; exact h)
  exact hp hp'

theorem modVersionString_ne_of_version_ne {p v1 v2 : String}
    (hv1 : v1 ≠ "") (hv2 : v2 ≠ "") (hne : v1 ≠ v2) :
    ModVersion.string ⟨p, v1⟩ ≠ ModVersion.string ⟨p, v2⟩ := by
  unfold ModVersion.string
  simp only [hv1, hv2, if_neg, reduceIte]
  intro h
  rw [String.ext_iff, String.data_append, String.data_append,
    String.data_append, String.data_append] at h
  exact hne (String.ext (List.append_cancel_left h))

theorem newVersion_nonempty {v : String} {sv : SemVer}
    (h : newVersion v = some sv) : v ≠ "" := by
  intro he
  rw [he] at h
  exact Option.noConfusion h

theorem dropRequire_noop {f : ModFile} {q : String}
    (h : ∀ r ∈ f.require, r.mod.path ≠ q) : dropRequire f q = f := by
  unfold dropRequire
  have key : ∀ (l : List Require), (∀ r ∈ l, r.mod.path ≠ q) →
      l.map (fun r => if r.mod.path = q then (⟨⟨"", ""⟩, false⟩ : Require) else r) = l := by
    intro l hl
    induction l with
    | nil => rfl
    | cons a rest ih =>
      simp only [List.map_cons, if_neg (hl a (List.mem_cons_self a rest)),
        ih fun r hr => hl r (List.mem_cons_of_mem _ hr)]
  rw [key f.require h]

theorem indirect_update_noop (d : Require) (s : Bool) :
    (if d.indirect ≠ !s then { d with indirect := s } else d) = d := by
  cases d with
  | mk m i => cases i <;> cases s <;> rfl

theorem reconcileRequire_comparable {p dv sv : String} {dind sind : Bool}
    {dvv svv : SemVer} (hne : sv ≠ dv)
    (hpd : newVersion dv = some dvv) (hps : newVersion sv = some svv)
    (hcc : canCompare dvv svv = true) :
    reconcileRequire ⟨⟨p, sv⟩, sind⟩ ⟨⟨p, dv⟩, dind⟩ false =
      .ok ⟨⟨p, if lessThan svv dvv then sv else dv⟩, dind⟩ := by
  unfold reconcileRequire
  simp only [hne, hpd, hps, hcc, Bool.true_eq_false, Bool.false_eq_true, if_false, reduceIte]
  by_cases hl : lessThan svv dvv <;>
    simp only [hl, if_true, if_false, reduceIte] <;>
    exact congrArg Except.ok (indirect_update_noop ⟨⟨p, _⟩, dind⟩ sind)

theorem reconcileRequire_incomparable {p dv sv : String} {dind sind : Bool}
    {dvv svv : SemVer} (hne : sv ≠ dv)
    (hpd : newVersion dv = some dvv) (hps : newVersion sv = some svv)
    (hcc : canCompare dvv svv = false) :
    reconcileRequire ⟨⟨p, sv⟩, sind⟩ ⟨⟨p, dv⟩, dind⟩ false =
      .error ("cannot reconcile difference between versions: dest=" ++
        ModVersion.string ⟨p, dv⟩ ++ " src=" ++ ModVersion.string ⟨p, sv⟩) := by
  unfold reconcileRequire
  simp only [hne, hpd, hps, hcc, Bool.false_eq_true, if_true, if_false, reduceIte]

theorem reconcileRequire_force {p dv sv : String} {dind sind : Bool}
    {dvv svv : SemVer} (hne : sv ≠ dv)
    (hpd : newVersion dv = some dvv) (hps : newVersion sv = some svv) :
    reconcileRequire ⟨⟨p, sv⟩, sind⟩ ⟨⟨p, dv⟩, dind⟩ true =
      .ok ⟨⟨p, sv⟩, dind⟩ := by
  unfold reconcileRequire
  simp only [hne, hpd, hps, if_true, if_false, reduceIte]
  exact congrArg Except.ok (indirect_update_noop ⟨⟨p, sv⟩, dind⟩ sind)

theorem scanRequire_miss (S : Require) (fo : Bool) (l : List Require)
    (h : ∀ r ∈ l, S.mod.string ≠ r.mod.string ∧ S.mod.path ≠ r.mod.path) :
    scanRequire S fo l = .ok (l, false) := by
  induction l with
  | nil => rfl
  | cons a rest ih =>
    obtain ⟨h1, h2⟩ := h a (List.mem_cons_self a rest)
    rw [scanRequire, if_neg h1, if_neg h2,
      ih fun r hr => h r (List.mem_cons_of_mem _ hr)]

theorem scanRequire_append (S : Require) (fo : Bool) (pre rest : List Require)
    (h : ∀ r ∈ pre, S.mod.string ≠ r.mod.string ∧ S.mod.path ≠ r.mod.path) :
    scanRequire S fo (pre ++ rest) =
      match scanRequire S fo rest with
      | .error e => .error e
      | .ok (l, f) => .ok (pre ++ l, f) := by
  induction pre with
  | nil =>
    simp only [List.nil_append]
    cases hs : scanRequire S fo rest with
    | error e => rfl
    | ok lf => cases lf; rfl
  | cons a pre ih =>
    obtain ⟨h1, h2⟩ := h a (List.mem_cons_self a pre)
    rw [List.cons_append, scanRequire, if_neg h1, if_neg h2,
      ih fun r hr => h r (List.mem_cons_of_mem _ hr)]
    cases hs : scanRequire S fo rest with
    | error e => rfl
    | ok lf => cases lf; rfl

/-- The exclusion-merge contract as the spec words it: union of the two
lists deduplicated by exact coordinate match (path and version
string-equal). Named spec-side definition, compared against
`mergeExcludes` below. -/
def excludeUnionSpec (dst srcs : List Exclude) : List Exclude :=
  srcs.foldl
    (fun acc e =>
      if acc.any fun x => x.mod.path = e.mod.path ∧ x.mod.version = e.mod.version then acc
      else acc ++ [e])
    dst

theorem exclude_any_string_eq_coord (e : Exclude) (l : List Exclude)
    (hfe : '@' ∉ e.mod.path.data) (hfl : ∀ x ∈ l, '@' ∉ x.mod.path.data) :
    (l.any fun destE => e.mod.string = destE.mod.string) =
      (l.any fun x => x.mod.path = e.mod.path ∧ x.mod.version = e.mod.version) := by
  induction l with
  | nil => rfl
  | cons a rest ih =>
    have hfa : '@' ∉ a.mod.path.data := hfl a (List.mem_cons_self a rest)
    have hiff : (e.mod.string = a.mod.string) ↔
        (a.mod.path = e.mod.path ∧ a.mod.version = e.mod.version) := by
      constructor
      · intro h
        obtain ⟨hp, hv⟩ := @modVersionString_inj e.mod.path e.mod.version
          a.mod.path a.mod.version hfe hfa
          (by cases hm : e.mod; cases hm2 : a.mod; rw [← hm, ← hm2]; exact h)
        exact ⟨hp.symm, hv.symm⟩
      · intro ⟨hp, hv⟩
        unfold ModVersion.string
        rw [hp, hv]
    simp only [List.any_cons, decide_eq_decide.mpr hiff,
      ih fun x hx => hfl x (List.mem_cons_of_mem _ hx)]

theorem mergeExcludesLoop_spec (srcs : List Exclude) (dest : ModFile)
    (h1 : ∀ e ∈ dest.exclude, '@' ∉ e.mod.path.data)
    (h2 : ∀ e ∈ srcs, '@' ∉ e.mod.path.data) :
    mergeExcludesLoop srcs dest =
      .ok { dest with exclude := excludeUnionSpec dest.exclude srcs } := by
  induction srcs generalizing dest with
  | nil => rfl
  | cons e rest ih =>
    have hfe : '@' ∉ e.mod.path.data := h2 e (List.mem_cons_self e rest)
    have h2' : ∀ x ∈ rest, '@' ∉ x.mod.path.data :=
      fun x hx => h2 x (List.mem_cons_of_mem _ hx)
    have hag := exclude_any_string_eq_coord e dest.exclude hfe h1
    rw [mergeExcludesLoop]
    by_cases hfound :
        (dest.exclude.any fun x => x.mod.path = e.mod.path ∧ x.mod.version = e.mod.version) = true
    · rw [if_pos (hag.trans hfound), ih dest h1 h2']
      have : excludeUnionSpec dest.exclude (e :: rest) = excludeUnionSpec dest.exclude rest := by
        unfold excludeUnionSpec
        rw [List.foldl_cons, if_pos hfound]
      rw [this]
    · rw [if_neg fun hc => hfound (hag.symm.trans hc)]
      have hadd : addExclude dest e.mod.path e.mod.version =
          { dest with exclude := dest.exclude ++ [e] } := by
        unfold addExclude
        rw [if_neg hfound]
      rw [hadd]
      have h1' : ∀ x ∈ dest.exclude ++ [e], '@' ∉ x.mod.path.data := by
        intro x hx
        rcases List.mem_append.mp hx with hx | hx
        · exact h1 x hx
        · rw [List.mem_singleton.mp hx]; exact hfe
      rw [ih { dest with exclude := dest.exclude ++ [e] } h1' h2']
      have : excludeUnionSpec dest.exclude (e :: rest) =
          excludeUnionSpec (dest.exclude ++ [e]) rest := by
        unfold excludeUnionSpec
        rw [List.foldl_cons, if_neg hfound]
      rw [this]

theorem reconcileRequire_path {S D D' : Require} {fo : Bool}
    (h : reconcileRequire S D fo = .ok D') : D'.mod.path = D.mod.path := by
  unfold reconcileRequire at h
  by_cases hv : S.mod.version = D.mod.version
  · rw [if_pos hv] at h
    cases h
    split <;> rfl
  · rw [if_neg hv] at h
    cases hd : newVersion D.mod.version with
    | none =>
      rw [hd] at h
      cases hs : newVersion S.mod.version with
      | none => rw [hs] at h; cases h
      | some svv => rw [hs] at h; cases h
    | some dvv =>
      rw [hd] at h
      cases hs : newVersion S.mod.version with
      | none => rw [hs] at h; cases h
      | some svv =>
        rw [hs] at h
        dsimp only at h
        by_cases hfo : fo = true
        · rw [if_pos hfo] at h
          cases h
          split <;> rfl
        · rw [if_neg hfo] at h
          by_cases hcc : canCompare dvv svv = false
          · rw [if_pos hcc] at h
            cases h
          · rw [if_neg hcc] at h
            by_cases hlt : lessThan svv dvv = true
            · rw [if_pos hlt] at h
              cases h
              split <;> rfl
            · rw [if_neg hlt] at h
              cases h
              split <;> rfl

theorem scanRequire_filter_frame {S : Require} {fo : Bool} {p : String}
    (hS : S.mod.path ≠ p) :
    ∀ {l l' : List Require} {found : Bool},
      scanRequire S fo l = .ok (l', found) →
      l'.filter (fun r => r.mod.path = p) = l.filter (fun r => r.mod.path = p) := by
  intro l
  induction l with
  | nil => intro l' found h; cases h; rfl
  | cons a rest ih =>
    intro l' found h
    rw [scanRequire] at h
    by_cases h1 : S.mod.string = a.mod.string
    · rw [if_pos h1] at h
      cases h
      rfl
    · rw [if_neg h1] at h
      by_cases h2 : S.mod.path = a.mod.path
      · rw [if_pos h2] at h
        cases hrec : reconcileRequire S a fo with
        | error e => rw [hrec] at h; cases h
        | ok a' =>
          rw [hrec] at h
          cases hscan : scanRequire S fo rest with
          | error e => rw [hscan] at h; cases h
          | ok lf =>
            obtain ⟨rest', f⟩ := lf
            rw [hscan] at h
            cases h
            have hap : ¬ a.mod.path = p := fun hc => hS (h2.trans hc)
            have hap' : ¬ a'.mod.path = p := by
              rw [reconcileRequire_path hrec]; exact hap
            simp only [List.filter_cons, decide_eq_true_eq, hap, hap', if_false, reduceIte]
            exact ih hscan
      · rw [if_neg h2] at h
        cases hscan : scanRequire S fo rest with
        | error e => rw [hscan] at h; cases h
        | ok lf =>
          obtain ⟨rest', f⟩ := lf
          rw [hscan] at h
          cases h
          simp only [List.filter_cons]
          rw [ih hscan]

theorem mergeRequiresLoop_filter_frame {fo : Bool} {p : String} :
    ∀ {srcs l l' : List Require},
      (∀ s ∈ srcs, s.mod.path ≠ p) →
      mergeRequiresLoop fo srcs l = .ok l' →
      l'.filter (fun r => r.mod.path = p) = l.filter (fun r => r.mod.path = p) := by
  intro srcs
  induction srcs with
  | nil => intro l l' _ h; cases h; rfl
  | cons s rest ih =>
    intro l l' hs h
    rw [mergeRequiresLoop] at h
    cases hscan : scanRequire s fo l with
    | error e => rw [hscan] at h; cases h
    | ok lf =>
      obtain ⟨l1, found⟩ := lf
      rw [hscan] at h
      have hsp : s.mod.path ≠ p := hs s (List.mem_cons_self s rest)
      have hfr := scanRequire_filter_frame hsp hscan
      have hrec := ih (fun x hx => hs x (List.mem_cons_of_mem _ hx)) h
      rw [hrec]
      cases found with
      | true => simpa using hfr
      | false =>
        simp only [Bool.false_eq_true, if_false, reduceIte]
        rw [List.filter_append, hfr]
        simp [hsp]

theorem dropRequire_filter_list {p q : String} (hp : p ≠ "") (hpq : p ≠ q) :
    ∀ (l : List Require),
      (l.map fun r => if r.mod.path = q then (⟨⟨"", ""⟩, false⟩ : Require) else r).filter
          (fun r => r.mod.path = p) =
        l.filter (fun r => r.mod.path = p) := by
  intro l
  induction l with
  | nil => rfl
  | cons a rest ih =>
    by_cases haq : a.mod.path = q
    · have hap : ¬ a.mod.path = p := fun hc => hpq (hc.symm.trans haq)
      have hep : ¬ ("" : String) = p := fun hc => hp hc.symm
      simp only [List.map_cons, if_pos haq, List.filter_cons, decide_eq_true_eq,
        hap, hep, if_false, reduceIte]
      exact ih
    · simp only [List.map_cons, if_neg haq, List.filter_cons]
      rw [ih]

/-! ### Claim theorems -/

/-- C1 (code bug): the claim says a destination entry marked indirect whose
matching source entry is direct is promoted to direct. The code does not do
this: on an exact coordinate match the scan stops before any indirect
handling, and in the differing-version branch the condition
`destR.Indirect != !srcR.Indirect` (main.go line 125) is a no-op for every
combination of flags. At the spec's own example input — destination
requires `pkg@v1.0.0` indirect, source requires `pkg@v1.0.0` direct — the
merged file still marks the entry indirect. -/
theorem indirect_promotion_not_performed :
    mergeRequires
      ⟨⟨"example.com/dest", ""⟩, [⟨⟨"example.com/pkg", "v1.0.0"⟩, true⟩], [], []⟩
      ⟨⟨"example.com/src", ""⟩, [⟨⟨"example.com/pkg", "v1.0.0"⟩, false⟩], [], []⟩
      false =
    .ok ⟨⟨"example.com/dest", ""⟩, [⟨⟨"example.com/pkg", "v1.0.0"⟩, true⟩], [], []⟩ := rfl

/-- C2 (code bug): the claim says a source entry whose path matches a
destination entry with a different version updates that entry and is not
additionally appended, so no two result entries share a path. In the code
the path-match branch of `mergeRequires` never sets `found`, so after
overwriting the destination entry's version the source entry is appended
as well: destination requiring `a@v1.2.0` merged with source requiring
`a@v1.1.0` yields two entries with the same path. -/
theorem require_duplicate_path_produced :
    runMerge
      ⟨⟨"example.com/dest", ""⟩, [⟨⟨"example.com/a", "v1.2.0"⟩, false⟩], [], []⟩
      ⟨⟨"example.com/src", ""⟩, [⟨⟨"example.com/a", "v1.1.0"⟩, false⟩], [], []⟩
      false =
    .ok ⟨⟨"example.com/dest", ""⟩,
      [⟨⟨"example.com/a", "v1.1.0"⟩, false⟩, ⟨⟨"example.com/a", "v1.1.0"⟩, false⟩],
      [], []⟩ ∧
    ¬ List.Nodup
      (List.map (fun r : Require => r.mod.path)
        [⟨⟨"example.com/a", "v1.1.0"⟩, false⟩, ⟨⟨"example.com/a", "v1.1.0"⟩, false⟩]) :=
  ⟨rfl, by decide⟩

/-- C3 (code bug): the claim says that when source and destination carry
replace directives with the same old coordinate but different new targets,
the merge aborts with a conflict error. In the code the exact
old-coordinate match at main.go line 165 fires first and marks the
directive found, so the conflict check at line 170 (which requires the same
old path and version) is unreachable: the merge silently keeps the
destination's target and reports success. -/
theorem conflicting_replacement_not_rejected :
    mergeReplacements
      ⟨⟨"example.com/dest", ""⟩, [],
        [⟨⟨"example.com/pkg", "v1.0.0"⟩, ⟨"local/pkg", "v1.0.0-fork"⟩⟩], []⟩
      ⟨⟨"example.com/src", ""⟩, [],
        [⟨⟨"example.com/pkg", "v1.0.0"⟩, ⟨"local/pkg", "v2.0.0-fork"⟩⟩], []⟩ =
    .ok ⟨⟨"example.com/dest", ""⟩, [],
      [⟨⟨"example.com/pkg", "v1.0.0"⟩, ⟨"local/pkg", "v1.0.0-fork"⟩⟩], []⟩ := rfl

/-- C4: with forceOverwrite false, when a source entry's path matches the
destination entry at path `p` with a different but comparable version (both
versions parse, `canCompare` holds), the matching destination entry's
version is overwritten with the source version exactly when the source
version is strictly lower, and is left unchanged otherwise — the matching
result entry holds the lower of the two versions. (The merge also appends
the source entry afterwards; that duplication is the subject of C2.) -/
theorem version_minimum_rule
    (df sf : ModFile) (p dv sv : String) (dind sind : Bool)
    (pre post : List Require) (dvv svv : SemVer)
    (hdr : df.require = pre ++ ⟨⟨p, dv⟩, dind⟩ :: post)
    (hsr : sf.require = [⟨⟨p, sv⟩, sind⟩])
    (hfree : ∀ r ∈ df.require, '@' ∉ r.mod.path.data)
    (hfp : '@' ∉ p.data)
    (hprepath : ∀ r ∈ pre, r.mod.path ≠ p)
    (hpostpath : ∀ r ∈ post, r.mod.path ≠ p)
    (hid : ∀ r ∈ df.require, r.mod.path ≠ sf.module.path)
    (hne : sv ≠ dv)
    (hpd : newVersion dv = some dvv)
    (hps : newVersion sv = some svv)
    (hcc : canCompare dvv svv = true) :
    mergeRequires df sf false =
      .ok { df with require :=
        pre ++ ⟨⟨p, if lessThan svv dvv then sv else dv⟩, dind⟩ ::
          (post ++ [⟨⟨p, sv⟩, sind⟩]) } := by
  have hdvne : dv ≠ "" := newVersion_nonempty hpd
  have hsvne : sv ≠ "" := newVersion_nonempty hps
  have hstrD : ModVersion.string ⟨p, sv⟩ ≠ ModVersion.string ⟨p, dv⟩ :=
    modVersionString_ne_of_version_ne hsvne hdvne hne
  have hpreMiss : ∀ r ∈ pre, (⟨⟨p, sv⟩, sind⟩ : Require).mod.string ≠ r.mod.string ∧
      (⟨⟨p, sv⟩, sind⟩ : Require).mod.path ≠ r.mod.path := by
    intro r hr
    have hrdf : r ∈ df.require := by rw [hdr]; exact List.mem_append_left _ hr
    exact ⟨modVersionString_ne hfp (hfree r hrdf) (hprepath r hr).symm, (hprepath r hr).symm⟩
  have hpostMiss : ∀ r ∈ post, (⟨⟨p, sv⟩, sind⟩ : Require).mod.string ≠ r.mod.string ∧
      (⟨⟨p, sv⟩, sind⟩ : Require).mod.path ≠ r.mod.path := by
    intro r hr
    have hrdf : r ∈ df.require := by
      rw [hdr]; exact List.mem_append_right _ (List.mem_cons_of_mem _ hr)
    exact ⟨modVersionString_ne hfp (hfree r hrdf) (hpostpath r hr).symm, (hpostpath r hr).symm⟩
  have htail := scanRequire_miss ⟨⟨p, sv⟩, sind⟩ false post hpostMiss
  have hstep : scanRequire ⟨⟨p, sv⟩, sind⟩ false (⟨⟨p, dv⟩, dind⟩ :: post) =
      .ok (⟨⟨p, if lessThan svv dvv then sv else dv⟩, dind⟩ :: post, false) := by
    rw [scanRequire, if_neg hstrD, if_pos rfl,
      reconcileRequire_comparable hne hpd hps hcc, htail]
  have hscan : scanRequire ⟨⟨p, sv⟩, sind⟩ false (pre ++ ⟨⟨p, dv⟩, dind⟩ :: post) =
      .ok (pre ++ ⟨⟨p, if lessThan svv dvv then sv else dv⟩, dind⟩ :: post, false) := by
    rw [scanRequire_append _ _ _ _ hpreMiss, hstep]
  simp only [mergeRequires]
  rw [dropRequire_noop hid, hsr, hdr]
  simp only [mergeRequiresLoop, hscan, if_false, Bool.false_eq_true, reduceIte,
    List.append_assoc, List.cons_append, List.nil_append]

/-- Witness for C4 at the spec's example: destination requires
`example.com/a@v1.2.0`, source requires `example.com/a@v1.1.0`; the
matching entry ends at the lower version `v1.1.0`. -/
theorem version_minimum_rule_witness :
    newVersion "v1.2.0" = some ⟨1, 2, 0, "", ""⟩ ∧
    newVersion "v1.1.0" = some ⟨1, 1, 0, "", ""⟩ ∧
    canCompare ⟨1, 2, 0, "", ""⟩ ⟨1, 1, 0, "", ""⟩ = true ∧
    mergeRequires
      ⟨⟨"example.com/dest", ""⟩, [⟨⟨"example.com/a", "v1.2.0"⟩, false⟩], [], []⟩
      ⟨⟨"example.com/src", ""⟩, [⟨⟨"example.com/a", "v1.1.0"⟩, false⟩], [], []⟩
      false =
    .ok ⟨⟨"example.com/dest", ""⟩,
      [⟨⟨"example.com/a", "v1.1.0"⟩, false⟩, ⟨⟨"example.com/a", "v1.1.0"⟩, false⟩],
      [], []⟩ :=
  ⟨rfl, rfl, rfl,
    version_minimum_rule
      ⟨⟨"example.com/dest", ""⟩, [⟨⟨"example.com/a", "v1.2.0"⟩, false⟩], [], []⟩
      ⟨⟨"example.com/src", ""⟩, [⟨⟨"example.com/a", "v1.1.0"⟩, false⟩], [], []⟩
      "example.com/a" "v1.2.0" "v1.1.0" false false [] []
      ⟨1, 2, 0, "", ""⟩ ⟨1, 1, 0, "", ""⟩
      rfl rfl (by decide) (by decide) (by decide) (by decide) (by decide) (by decide)
      rfl rfl rfl⟩

/-- C5: when a source entry's path matches the destination entry at path `p`
with a different version, both versions parse, and the versions are not
comparable, the merge without forceOverwrite aborts with the
irreconcilable-version error naming both coordinates; with forceOverwrite
the destination entry's version is set to the source version and no
comparability error occurs. -/
theorem irreconcilable_error_and_force_overwrite
    (df sf : ModFile) (p dv sv : String) (dind sind : Bool)
    (pre post : List Require) (dvv svv : SemVer)
    (hdr : df.require = pre ++ ⟨⟨p, dv⟩, dind⟩ :: post)
    (hsr : sf.require = [⟨⟨p, sv⟩, sind⟩])
    (hfree : ∀ r ∈ df.require, '@' ∉ r.mod.path.data)
    (hfp : '@' ∉ p.data)
    (hprepath : ∀ r ∈ pre, r.mod.path ≠ p)
    (hpostpath : ∀ r ∈ post, r.mod.path ≠ p)
    (hid : ∀ r ∈ df.require, r.mod.path ≠ sf.module.path)
    (hne : sv ≠ dv)
    (hpd : newVersion dv = some dvv)
    (hps : newVersion sv = some svv)
    (hcc : canCompare dvv svv = false) :
    mergeRequires df sf false =
      .error ("cannot reconcile difference between versions: dest=" ++
        ModVersion.string ⟨p, dv⟩ ++ " src=" ++ ModVersion.string ⟨p, sv⟩) ∧
    mergeRequires df sf true =
      .ok { df with require := pre ++ ⟨⟨p, sv⟩, dind⟩ :: (post ++ [⟨⟨p, sv⟩, sind⟩]) } := by
  have hdvne : dv ≠ "" := newVersion_nonempty hpd
  have hsvne : sv ≠ "" := newVersion_nonempty hps
  have hstrD : ModVersion.string ⟨p, sv⟩ ≠ ModVersion.string ⟨p, dv⟩ :=
    modVersionString_ne_of_version_ne hsvne hdvne hne
  have hpreMiss : ∀ r ∈ pre, (⟨⟨p, sv⟩, sind⟩ : Require).mod.string ≠ r.mod.string ∧
      (⟨⟨p, sv⟩, sind⟩ : Require).mod.path ≠ r.mod.path := by
    intro r hr
    have hrdf : r ∈ df.require := by rw [hdr]; exact List.mem_append_left _ hr
    exact ⟨modVersionString_ne hfp (hfree r hrdf) (hprepath r hr).symm, (hprepath r hr).symm⟩
  have hpostMiss : ∀ r ∈ post, (⟨⟨p, sv⟩, sind⟩ : Require).mod.string ≠ r.mod.string ∧
      (⟨⟨p, sv⟩, sind⟩ : Require).mod.path ≠ r.mod.path := by
    intro r hr
    have hrdf : r ∈ df.require := by
      rw [hdr]; exact List.mem_append_right _ (List.mem_cons_of_mem _ hr)
    exact ⟨modVersionString_ne hfp (hfree r hrdf) (hpostpath r hr).symm, (hpostpath r hr).symm⟩
  have htailT := scanRequire_miss ⟨⟨p, sv⟩, sind⟩ true post hpostMiss
  have htailF := scanRequire_miss ⟨⟨p, sv⟩, sind⟩ false post hpostMiss
  constructor
  · have hstep : scanRequire ⟨⟨p, sv⟩, sind⟩ false (⟨⟨p, dv⟩, dind⟩ :: post) =
        .error ("cannot reconcile difference between versions: dest=" ++
          ModVersion.string ⟨p, dv⟩ ++ " src=" ++ ModVersion.string ⟨p, sv⟩) := by
      rw [scanRequire, if_neg hstrD, if_pos rfl,
        reconcileRequire_incomparable hne hpd hps hcc]
    have hscan : scanRequire ⟨⟨p, sv⟩, sind⟩ false (pre ++ ⟨⟨p, dv⟩, dind⟩ :: post) =
        .error ("cannot reconcile difference between versions: dest=" ++
          ModVersion.string ⟨p, dv⟩ ++ " src=" ++ ModVersion.string ⟨p, sv⟩) := by
      rw [scanRequire_append _ _ _ _ hpreMiss, hstep]
    simp only [mergeRequires]
    rw [dropRequire_noop hid, hsr, hdr]
    simp only [mergeRequiresLoop, hscan]
  · have hstep : scanRequire ⟨⟨p, sv⟩, sind⟩ true (⟨⟨p, dv⟩, dind⟩ :: post) =
        .ok (⟨⟨p, sv⟩, dind⟩ :: post, false) := by
      rw [scanRequire, if_neg hstrD, if_pos rfl,
        reconcileRequire_force hne hpd hps, htailT]
    have hscan : scanRequire ⟨⟨p, sv⟩, sind⟩ true (pre ++ ⟨⟨p, dv⟩, dind⟩ :: post) =
        .ok (pre ++ ⟨⟨p, sv⟩, dind⟩ :: post, false) := by
      rw [scanRequire_append _ _ _ _ hpreMiss, hstep]
    simp only [mergeRequires]
    rw [dropRequire_noop hid, hsr, hdr]
    simp only [mergeRequiresLoop, hscan, if_false, Bool.false_eq_true, reduceIte,
      List.append_assoc, List.cons_append, List.nil_append]

/-- Witness for C5 at the spec's example: destination requires
`example.com/pkg@v1.2.0`, source requires the pseudo-version
`example.com/pkg@v0.0.0-20190101000000-abcdef000000`; without force the
merge fails with the irreconcilable-version error naming both coordinates,
with force the matching entry takes the source version. -/
theorem irreconcilable_error_and_force_overwrite_witness :
    newVersion "v1.2.0" = some ⟨1, 2, 0, "", ""⟩ ∧
    newVersion "v0.0.0-20190101000000-abcdef000000" =
      some ⟨0, 0, 0, "20190101000000-abcdef000000", ""⟩ ∧
    canCompare ⟨1, 2, 0, "", ""⟩ ⟨0, 0, 0, "20190101000000-abcdef000000", ""⟩ = false ∧
    (mergeRequires
      ⟨⟨"example.com/dest", ""⟩, [⟨⟨"example.com/pkg", "v1.2.0"⟩, false⟩], [], []⟩
      ⟨⟨"example.com/src", ""⟩,
        [⟨⟨"example.com/pkg", "v0.0.0-20190101000000-abcdef000000"⟩, false⟩], [], []⟩
      false =
      .error "cannot reconcile difference between versions: dest=example.com/pkg@v1.2.0 src=example.com/pkg@v0.0.0-20190101000000-abcdef000000" ∧
    mergeRequires
      ⟨⟨"example.com/dest", ""⟩, [⟨⟨"example.com/pkg", "v1.2.0"⟩, false⟩], [], []⟩
      ⟨⟨"example.com/src", ""⟩,
        [⟨⟨"example.com/pkg", "v0.0.0-20190101000000-abcdef000000"⟩, false⟩], [], []⟩
      true =
      .ok ⟨⟨"example.com/dest", ""⟩,
        [⟨⟨"example.com/pkg", "v0.0.0-20190101000000-abcdef000000"⟩, false⟩,
         ⟨⟨"example.com/pkg", "v0.0.0-20190101000000-abcdef000000"⟩, false⟩],
        [], []⟩) :=
  ⟨rfl, rfl, rfl,
    irreconcilable_error_and_force_overwrite
      ⟨⟨"example.com/dest", ""⟩, [⟨⟨"example.com/pkg", "v1.2.0"⟩, false⟩], [], []⟩
      ⟨⟨"example.com/src", ""⟩,
        [⟨⟨"example.com/pkg", "v0.0.0-20190101000000-abcdef000000"⟩, false⟩], [], []⟩
      "example.com/pkg" "v1.2.0" "v0.0.0-20190101000000-abcdef000000" false false [] []
      ⟨1, 2, 0, "", ""⟩ ⟨0, 0, 0, "20190101000000-abcdef000000", ""⟩
      rfl rfl (by decide) (by decide) (by decide) (by decide) (by decide) (by decide)
      rfl rfl rfl⟩

/-- C7: the exclusion merge computes the union of the two exclusion lists
deduplicated by exact coordinate match (path and version string-equal):
every source exclusion with no identically-coordinated destination entry is
appended exactly once, matched ones change nothing, no version comparison
or conflict check runs, the pass never fails (it always returns ok), and
the other manifest sections are untouched. Stated for manifests whose
exclusion paths contain no `@` (true of every valid module path), under
which the code's coordinate-string match coincides with componentwise
coordinate equality. -/
theorem exclude_union_dedup (dest src : ModFile)
    (h1 : ∀ e ∈ dest.exclude, '@' ∉ e.mod.path.data)
    (h2 : ∀ e ∈ src.exclude, '@' ∉ e.mod.path.data) :
    mergeExcludes dest src =
      .ok { dest with exclude := excludeUnionSpec dest.exclude src.exclude } :=
  mergeExcludesLoop_spec src.exclude dest h1 h2

/-- Witness for C7: destination excludes `x@v1.0.0`; source excludes
`x@v1.0.0` (duplicate, skipped) and `y@v2.0.0` (new, appended once). -/
theorem exclude_union_dedup_witness :
    (∀ e ∈ [(⟨⟨"example.com/x", "v1.0.0"⟩⟩ : Exclude)], '@' ∉ e.mod.path.data) ∧
    (∀ e ∈ [(⟨⟨"example.com/x", "v1.0.0"⟩⟩ : Exclude), ⟨⟨"example.com/y", "v2.0.0"⟩⟩],
      '@' ∉ e.mod.path.data) ∧
    mergeExcludes
      ⟨⟨"example.com/dest", ""⟩, [], [], [⟨⟨"example.com/x", "v1.0.0"⟩⟩]⟩
      ⟨⟨"example.com/src", ""⟩, [], [],
        [⟨⟨"example.com/x", "v1.0.0"⟩⟩, ⟨⟨"example.com/y", "v2.0.0"⟩⟩]⟩ =
    .ok ⟨⟨"example.com/dest", ""⟩, [], [],
      [⟨⟨"example.com/x", "v1.0.0"⟩⟩, ⟨⟨"example.com/y", "v2.0.0"⟩⟩]⟩ :=
  ⟨by decide, by decide,
    exclude_union_dedup
      ⟨⟨"example.com/dest", ""⟩, [], [], [⟨⟨"example.com/x", "v1.0.0"⟩⟩]⟩
      ⟨⟨"example.com/src", ""⟩, [], [],
        [⟨⟨"example.com/x", "v1.0.0"⟩⟩, ⟨⟨"example.com/y", "v2.0.0"⟩⟩]⟩
      (by decide) (by decide)⟩

/-- C8: `canCompare` returns true exactly when both parsed versions have an
empty pre-release tag or both have a non-empty one. -/
theorem canCompare_iff_both_or_neither (a b : SemVer) :
    canCompare a b = true ↔ ((a.pre = "" ∧ b.pre = "") ∨ (a.pre ≠ "" ∧ b.pre ≠ "")) := by
  simp [canCompare]

theorem scanRequire_paths {S : Require} {fo : Bool} :
    ∀ {l l' : List Require} {found : Bool},
      scanRequire S fo l = .ok (l', found) →
      l'.map (fun r => r.mod.path) = l.map (fun r => r.mod.path) := by
  intro l
  induction l with
  | nil => intro l' found h; cases h; rfl
  | cons a rest ih =>
    intro l' found h
    rw [scanRequire] at h
    by_cases h1 : S.mod.string = a.mod.string
    · rw [if_pos h1] at h; cases h; rfl
    · rw [if_neg h1] at h
      by_cases h2 : S.mod.path = a.mod.path
      · rw [if_pos h2] at h
        cases hrec : reconcileRequire S a fo with
        | error e => rw [hrec] at h; cases h
        | ok a' =>
          rw [hrec] at h
          cases hscan : scanRequire S fo rest with
          | error e => rw [hscan] at h; cases h
          | ok lf =>
            obtain ⟨rest', f⟩ := lf
            rw [hscan] at h
            cases h
            simp only [List.map_cons, reconcileRequire_path hrec, ih hscan]
      · rw [if_neg h2] at h
        cases hscan : scanRequire S fo rest with
        | error e => rw [hscan] at h; cases h
        | ok lf =>
          obtain ⟨rest', f⟩ := lf
          rw [hscan] at h
          cases h
          simp only [List.map_cons, ih hscan]

theorem mergeRequiresLoop_mem_paths {fo : Bool} :
    ∀ {srcs l l' : List Require},
      mergeRequiresLoop fo srcs l = .ok l' →
      ∀ r ∈ l', r.mod.path ∈ l.map (fun x => x.mod.path) ∨
        r.mod.path ∈ srcs.map (fun x => x.mod.path) := by
  intro srcs
  induction srcs with
  | nil =>
    intro l l' h r hr
    cases h
    exact Or.inl (List.mem_map_of_mem _ hr)
  | cons s rest ih =>
    intro l l' h r hr
    rw [mergeRequiresLoop] at h
    cases hscan : scanRequire s fo l with
    | error e => rw [hscan] at h; cases h
    | ok lf =>
      obtain ⟨l1, found⟩ := lf
      rw [hscan] at h
      have hpaths := scanRequire_paths hscan
      rcases ih h r hr with hin | hin
      · cases found with
        | true =>
          simp only [if_true, reduceIte] at hin
          rw [hpaths] at hin
          exact Or.inl hin
        | false =>
          simp only [Bool.false_eq_true, if_false, reduceIte, List.map_append,
            List.map_cons, List.map_nil] at hin
          rcases List.mem_append.mp hin with hin | hin
          · rw [hpaths] at hin
            exact Or.inl hin
          · have he := List.mem_singleton.mp hin
            exact Or.inr (by
              simp only [List.map_cons]
              rw [he]
              exact List.mem_cons_self _ _)
      · exact Or.inr (by
          simp only [List.map_cons]
          exact List.mem_cons_of_mem _ hin)

theorem dropRequire_mem_paths {f : ModFile} {q : String} :
    ∀ r ∈ (dropRequire f q).require, r.mod.path = "" ∨ r.mod.path ≠ q := by
  intro r hr
  obtain ⟨x, hx, he⟩ := List.mem_map.mp hr
  by_cases hxq : x.mod.path = q
  · rw [if_pos hxq] at he
    left
    rw [← he]
  · rw [if_neg hxq] at he
    right
    rw [← he]
    exact hxq

theorem addReplaceLoop_mem_paths {o n : ModVersion} :
    ∀ {l : List Replace} {need need' : Bool} {l' : List Replace},
      addReplaceLoop o n l need = (l', need') →
      ∀ r ∈ l', r.old.path = "" ∨ r.old.path ∈ l.map (fun x => x.old.path) := by
  intro l
  induction l with
  | nil =>
    intro need need' l' h r hr
    cases h
    cases hr
  | cons a rest ih =>
    intro need need' l' h
    rw [addReplaceLoop] at h
    by_cases hc : a.old.path = o.path ∧ (o.version = "" ∨ a.old.version = o.version)
    · rw [if_pos hc] at h
      cases need with
      | true =>
        simp only [if_true, reduceIte] at h
        cases hrec : addReplaceLoop o n rest false with
        | mk rest' need1 =>
          rw [hrec] at h
          cases h
          intro r hr
          rcases List.mem_cons.mp hr with he | hr
          · right
            rw [he]
            simp
          · rcases ih hrec r hr with h0 | h0
            · exact Or.inl h0
            · right
              simp only [List.map_cons]
              exact List.mem_cons_of_mem _ h0
      | false =>
        simp only [Bool.false_eq_true, if_false, reduceIte] at h
        cases hrec : addReplaceLoop o n rest false with
        | mk rest' need1 =>
          rw [hrec] at h
          cases h
          intro r hr
          rcases List.mem_cons.mp hr with he | hr
          · left
            rw [he]
          · rcases ih hrec r hr with h0 | h0
            · exact Or.inl h0
            · right
              simp only [List.map_cons]
              exact List.mem_cons_of_mem _ h0
    · rw [if_neg hc] at h
      cases hrec : addReplaceLoop o n rest need with
      | mk rest' need1 =>
        rw [hrec] at h
        cases h
        intro r hr
        rcases List.mem_cons.mp hr with he | hr
        · right
          rw [he]
          simp
        · rcases ih hrec r hr with h0 | h0
          · exact Or.inl h0
          · right
            simp only [List.map_cons]
            exact List.mem_cons_of_mem _ h0

theorem addReplace_mem_paths {f : ModFile} {op ov np nv : String} :
    ∀ r ∈ (addReplace f op ov np nv).replace,
      r.old.path = "" ∨ r.old.path ∈ f.replace.map (fun x => x.old.path) ∨
        r.old.path = op := by
  intro r hr
  unfold addReplace at hr
  cases hal : addReplaceLoop ⟨op, ov⟩ ⟨np, nv⟩ f.replace true with
  | mk rs need =>
    rw [hal] at hr
    cases need with
    | true =>
      simp only [if_true, reduceIte] at hr
      rcases List.mem_append.mp hr with hr | hr
      · rcases addReplaceLoop_mem_paths hal r hr with h0 | h0
        · exact Or.inl h0
        · exact Or.inr (Or.inl h0)
      · rcases List.mem_singleton.mp hr with rfl
        exact Or.inr (Or.inr rfl)
    | false =>
      simp only [Bool.false_eq_true, if_false, reduceIte] at hr
      rcases addReplaceLoop_mem_paths hal r hr with h0 | h0
      · exact Or.inl h0
      · exact Or.inr (Or.inl h0)

theorem mergeReplacementsLoop_mem_paths :
    ∀ {srcs : List Replace} {d d' : ModFile},
      mergeReplacementsLoop srcs d = .ok d' →
      ∀ r ∈ d'.replace, r.old.path = "" ∨
        r.old.path ∈ d.replace.map (fun x => x.old.path) ∨
        r.old.path ∈ srcs.map (fun x => x.old.path) := by
  intro srcs
  induction srcs with
  | nil =>
    intro d d' h r hr
    cases h
    exact Or.inr (Or.inl (List.mem_map_of_mem _ hr))
  | cons s rest ih =>
    intro d d' h r hr
    rw [mergeReplacementsLoop] at h
    cases hscan : scanReplace s d.replace with
    | error e => rw [hscan] at h; cases h
    | ok found =>
      rw [hscan] at h
      cases found with
      | true =>
        simp only [if_true, reduceIte] at h
        rcases ih h r hr with h0 | h0 | h0
        · exact Or.inl h0
        · exact Or.inr (Or.inl h0)
        · exact Or.inr (Or.inr (by simp only [List.map_cons]; exact List.mem_cons_of_mem _ h0))
      | false =>
        simp only [Bool.false_eq_true, if_false, reduceIte] at h
        rcases ih h r hr with h0 | h0 | h0
        · exact Or.inl h0
        · obtain ⟨x, hx, hxe⟩ := List.mem_map.mp h0
          rcases addReplace_mem_paths x hx with h1 | h1 | h1
          · exact Or.inl (hxe ▸ h1)
          · exact Or.inr (Or.inl (hxe ▸ h1))
          · have hr2 : r.old.path = s.old.path := hxe ▸ h1
            exact Or.inr (Or.inr (by
              simp only [List.map_cons]
              rw [hr2]
              exact List.mem_cons_self _ _))
        · exact Or.inr (Or.inr (by
            simp only [List.map_cons]
            exact List.mem_cons_of_mem _ h0))

theorem dropPhase_mem_paths {idp : String} (hid : idp ≠ "") :
    ∀ (vs : List ModVersion) (d : ModFile),
      (∀ r ∈ d.replace, r.old.path = idp → r.old ∈ vs) →
      ∀ r ∈ (vs.foldl (fun d v => dropReplace d v.path v.version) d).replace,
        r.old.path = "" ∨ r.old.path ≠ idp := by
  intro vs
  induction vs with
  | nil =>
    intro d hpre r hr
    right
    intro hc
    exact absurd (hpre r hr hc) (List.not_mem_nil _)
  | cons v rest ih =>
    intro d hpre
    rw [List.foldl_cons]
    apply ih
    intro r hr hc
    obtain ⟨x, hx, he⟩ := List.mem_map.mp hr
    by_cases hxv : x.old.path = v.path ∧ x.old.version = v.version
    · rw [if_pos hxv] at he
      exfalso
      apply hid
      rw [← hc, ← he]
    · rw [if_neg hxv] at he
      have hx2 : x.old ∈ v :: rest := hpre x hx (by rw [← he] at hc; exact hc)
      rcases List.mem_cons.mp hx2 with hxe | hx2
      · exact absurd ⟨by rw [hxe], by rw [hxe]⟩ hxv
      · rw [← he]
        exact hx2

theorem dropPhaseFold_frame :
    ∀ (vs : List ModVersion) (d : ModFile),
      (vs.foldl (fun d v => dropReplace d v.path v.version) d).require = d.require ∧
      (vs.foldl (fun d v => dropReplace d v.path v.version) d).exclude = d.exclude ∧
      (vs.foldl (fun d v => dropReplace d v.path v.version) d).module = d.module := by
  intro vs
  induction vs with
  | nil => intro d; exact ⟨rfl, rfl, rfl⟩
  | cons v rest ih =>
    intro d
    rw [List.foldl_cons]
    exact ih (dropReplace d v.path v.version)

theorem addReplace_frame (f : ModFile) (op ov np nv : String) :
    (addReplace f op ov np nv).require = f.require ∧
    (addReplace f op ov np nv).exclude = f.exclude ∧
    (addReplace f op ov np nv).module = f.module := by
  unfold addReplace
  cases hal : addReplaceLoop ⟨op, ov⟩ ⟨np, nv⟩ f.replace true with
  | mk rs need => cases need <;> exact ⟨rfl, rfl, rfl⟩

theorem mergeReplacementsLoop_frame :
    ∀ (srcs : List Replace) (d d' : ModFile),
      mergeReplacementsLoop srcs d = .ok d' →
      d'.require = d.require ∧ d'.exclude = d.exclude ∧ d'.module = d.module := by
  intro srcs
  induction srcs with
  | nil =>
    intro d d' h
    cases h
    exact ⟨rfl, rfl, rfl⟩
  | cons s rest ih =>
    intro d d' h
    rw [mergeReplacementsLoop] at h
    cases hscan : scanReplace s d.replace with
    | error e => rw [hscan] at h; cases h
    | ok found =>
      rw [hscan] at h
      cases found with
      | true => exact ih _ _ h
      | false =>
        obtain ⟨h1, h2, h3⟩ := ih _ _ h
        obtain ⟨g1, g2, g3⟩ := addReplace_frame d s.old.path s.old.version s.new.path s.new.version
        exact ⟨h1.trans g1, h2.trans g2, h3.trans g3⟩

theorem mergeReplacements_frame {dest src d' : ModFile}
    (h : mergeReplacements dest src = .ok d') :
    d'.require = dest.require ∧ d'.exclude = dest.exclude ∧ d'.module = dest.module := by
  unfold mergeReplacements at h
  dsimp only at h
  obtain ⟨h1, h2, h3⟩ := mergeReplacementsLoop_frame _ _ _ h
  obtain ⟨g1, g2, g3⟩ := dropPhaseFold_frame
    ((dest.replace.filter fun r => r.old.path = src.module.path).map (·.old)) dest
  exact ⟨h1.trans g1, h2.trans g2, h3.trans g3⟩

theorem addExclude_frame (f : ModFile) (p v : String) :
    (addExclude f p v).require = f.require ∧ (addExclude f p v).replace = f.replace ∧
    (addExclude f p v).module = f.module := by
  unfold addExclude
  split <;> exact ⟨rfl, rfl, rfl⟩

theorem mergeExcludesLoop_frame :
    ∀ (srcs : List Exclude) (d d' : ModFile),
      mergeExcludesLoop srcs d = .ok d' →
      d'.require = d.require ∧ d'.replace = d.replace ∧ d'.module = d.module := by
  intro srcs
  induction srcs with
  | nil =>
    intro d d' h
    cases h
    exact ⟨rfl, rfl, rfl⟩
  | cons e rest ih =>
    intro d d' h
    rw [mergeExcludesLoop] at h
    by_cases hb : (d.exclude.any fun destE => e.mod.string = destE.mod.string) = true
    · rw [if_pos hb] at h
      exact ih _ _ h
    · rw [if_neg hb] at h
      obtain ⟨h1, h2, h3⟩ := ih _ _ h
      obtain ⟨g1, g2, g3⟩ := addExclude_frame d e.mod.path e.mod.version
      exact ⟨h1.trans g1, h2.trans g2, h3.trans g3⟩

theorem mergeRequires_frame {dest src : ModFile} {fo : Bool} {d' : ModFile}
    (h : mergeRequires dest src fo = .ok d') :
    d'.replace = dest.replace ∧ d'.exclude = dest.exclude ∧ d'.module = dest.module := by
  unfold mergeRequires at h
  dsimp only at h
  cases hloop : mergeRequiresLoop fo src.require (dropRequire dest src.module.path).require with
  | error e => rw [hloop] at h; cases h
  | ok reqs =>
    rw [hloop] at h
    cases h
    exact ⟨rfl, rfl, rfl⟩

/-- C10 (frame): a destination require entry whose path is neither the
source module's identity nor the path of any source require entry passes
through the requirement merge untouched — the result's entries at that path
are exactly the destination's entries at that path, with path, version and
indirect flag unchanged. (`p ≠ ""` holds for every entry of a parsed
manifest; the empty path is the zeroed form `DropRequire` leaves behind.) -/
theorem require_frame_untouched_paths (df sf : ModFile) (fo : Bool) (p : String)
    (out : ModFile)
    (hp1 : p ≠ "") (hp2 : p ≠ sf.module.path)
    (hp3 : ∀ s ∈ sf.require, s.mod.path ≠ p)
    (hok : mergeRequires df sf fo = .ok out) :
    out.require.filter (fun r => r.mod.path = p) =
      df.require.filter (fun r => r.mod.path = p) := by
  unfold mergeRequires at hok
  dsimp only at hok
  cases hloop : mergeRequiresLoop fo sf.require (dropRequire df sf.module.path).require with
  | error e => rw [hloop] at hok; cases hok
  | ok reqs =>
    rw [hloop] at hok
    cases hok
    dsimp only
    rw [mergeRequiresLoop_filter_frame hp3 hloop]
    exact dropRequire_filter_list hp1 hp2 df.require

/-- Witness for C10: destination requires `example.com/b@v1.0.0` indirect;
the source (module `example.com/src`) requires only `example.com/a`; after
the merge the entry at path `example.com/b` is unchanged. -/
theorem require_frame_untouched_paths_witness :
    ("example.com/b" ≠ "") ∧
    ("example.com/b" ≠ "example.com/src") ∧
    (∀ s ∈ [(⟨⟨"example.com/a", "v1.1.0"⟩, false⟩ : Require)],
      s.mod.path ≠ "example.com/b") ∧
    List.filter (fun r : Require => r.mod.path = "example.com/b")
        [⟨⟨"example.com/b", "v1.0.0"⟩, true⟩, ⟨⟨"example.com/a", "v1.1.0"⟩, false⟩] =
      List.filter (fun r : Require => r.mod.path = "example.com/b")
        [⟨⟨"example.com/b", "v1.0.0"⟩, true⟩] :=
  ⟨by decide, by decide, by decide,
    require_frame_untouched_paths
      ⟨⟨"example.com/dest", ""⟩, [⟨⟨"example.com/b", "v1.0.0"⟩, true⟩], [], []⟩
      ⟨⟨"example.com/src", ""⟩, [⟨⟨"example.com/a", "v1.1.0"⟩, false⟩], [], []⟩
      false "example.com/b"
      ⟨⟨"example.com/dest", ""⟩,
        [⟨⟨"example.com/b", "v1.0.0"⟩, true⟩, ⟨⟨"example.com/a", "v1.1.0"⟩, false⟩],
        [], []⟩
      (by decide) (by decide) (by decide) rfl⟩

/-- C6: when the full merge succeeds on a source manifest that does not
require or replace its own module, no result require entry has the source
identity as its path and no result replace directive has the source
identity as its old path; and when the destination holds no self-reference,
the removal steps (`DropRequire` on the identity and the replace drop
phase) are no-ops, never errors. -/
theorem self_reference_stripped (df sf : ModFile) (fo : Bool) (out : ModFile)
    (hs1 : ∀ r ∈ sf.require, r.mod.path ≠ sf.module.path)
    (hs2 : ∀ r ∈ sf.replace, r.old.path ≠ sf.module.path)
    (hok : runMerge df sf fo = .ok out) :
    (∀ r ∈ out.require, r.mod.path ≠ sf.module.path) ∧
    (∀ r ∈ out.replace, r.old.path ≠ sf.module.path) ∧
    ((∀ r ∈ df.require, r.mod.path ≠ sf.module.path) →
      dropRequire df sf.module.path = df) ∧
    ((∀ r ∈ df.replace, r.old.path ≠ sf.module.path) →
      ((df.replace.filter fun r => r.old.path = sf.module.path).map (fun r => r.old)).foldl
        (fun d v => dropReplace d v.path v.version) df = df) := by
  unfold runMerge at hok
  cases hm1 : mergeRequires df sf fo with
  | error e => rw [hm1] at hok; cases hok
  | ok d1 =>
    rw [hm1] at hok
    dsimp only at hok
    cases hm2 : mergeReplacements d1 sf with
    | error e => rw [hm2] at hok; cases hok
    | ok d2 =>
      rw [hm2] at hok
      dsimp only at hok
      cases hm3 : mergeExcludes d2 sf with
      | error e => rw [hm3] at hok; cases hok
      | ok d3 =>
        rw [hm3] at hok
        dsimp only at hok
        cases hok
        have hm3' : mergeExcludesLoop sf.exclude d2 = .ok d3 := hm3
        obtain ⟨e1, e2, -⟩ := mergeExcludesLoop_frame sf.exclude d2 d3 hm3'
        unfold mergeRequires at hm1
        dsimp only at hm1
        cases hloop : mergeRequiresLoop fo sf.require (dropRequire df sf.module.path).require with
        | error e => rw [hloop] at hm1; cases hm1
        | ok reqs =>
          rw [hloop] at hm1
          have hd1 : d1 = { dropRequire df sf.module.path with require := reqs } :=
            (Except.ok.inj hm1).symm
          have hd1req : d1.require = reqs := by rw [hd1]
          have hd1rep : d1.replace = df.replace := by rw [hd1]; rfl
          unfold mergeReplacements at hm2
          dsimp only at hm2
          have hfold := dropPhaseFold_frame
            ((d1.replace.filter fun r => r.old.path = sf.module.path).map (fun r => r.old)) d1
          have hl2 := mergeReplacementsLoop_frame sf.replace _ d2 hm2
          refine ⟨?_, ?_, ?_, ?_⟩
          · intro r hr hc
            have hmem := List.mem_filter.mp hr
            have hne : r.mod.path ≠ "" := by simpa using hmem.2
            have hrq : r ∈ reqs := by
              have x := hmem.1
              rw [e1] at x
              rw [hl2.1] at x
              rw [hfold.1] at x
              rw [hd1req] at x
              exact x
            rcases mergeRequiresLoop_mem_paths hloop r hrq with hin | hin
            · obtain ⟨x, hx, he⟩ := List.mem_map.mp hin
              rcases dropRequire_mem_paths x hx with h0 | h0
              · exact hne (by rw [← he, h0])
              · exact h0 (by rw [he, hc])
            · obtain ⟨s, hs, he⟩ := List.mem_map.mp hin
              exact hs1 s hs (by rw [he, hc])
          · intro r hr hc
            have hmem := List.mem_filter.mp hr
            have hne : r.old.path ≠ "" := by simpa using hmem.2
            have hr2 : r ∈ d2.replace := by
              have x := hmem.1
              rw [e2] at x
              exact x
            rcases mergeReplacementsLoop_mem_paths hm2 r hr2 with h0 | h0 | h0
            · exact hne h0
            · by_cases hid0 : sf.module.path = ""
              · exact hne (hc.trans hid0)
              · obtain ⟨x, hx, he⟩ := List.mem_map.mp h0
                have hpre : ∀ rr ∈ d1.replace, rr.old.path = sf.module.path →
                    rr.old ∈ (d1.replace.filter fun r => r.old.path = sf.module.path).map
                      (fun r => r.old) := by
                  intro rr hrr hre
                  exact List.mem_map_of_mem _
                    (List.mem_filter.mpr ⟨hrr, by simpa using hre⟩)
                rcases dropPhase_mem_paths hid0 _ d1 hpre x hx with h1 | h1
                · exact hne (by rw [← he, h1])
                · exact h1 (by rw [he, hc])
            · obtain ⟨s, hs, he⟩ := List.mem_map.mp h0
              exact hs2 s hs (by rw [he, hc])
          · intro h
            exact dropRequire_noop h
          · intro h
            have hnil : (df.replace.filter fun r => r.old.path = sf.module.path) = [] := by
              rw [List.filter_eq_nil_iff]
              intro a ha
              simpa using h a ha
            rw [hnil]
            rfl

/-- Witness for C6: the destination both requires and replaces the source
module `example.com/src`; after the merge both self-references are gone and
the source's entry `example.com/a` was added. -/
theorem self_reference_stripped_witness :
    (∀ r ∈ [(⟨⟨"example.com/a", "v1.0.0"⟩, false⟩ : Require)],
      r.mod.path ≠ "example.com/src") ∧
    (∀ r ∈ ([] : List Replace), r.old.path ≠ "example.com/src") ∧
    ((∀ r ∈ [(⟨⟨"example.com/a", "v1.0.0"⟩, false⟩ : Require)],
        r.mod.path ≠ "example.com/src") ∧
      (∀ r ∈ ([] : List Replace), r.old.path ≠ "example.com/src") ∧
      ((∀ r ∈ [(⟨⟨"example.com/src", "v0.9.0"⟩, false⟩ : Require)],
          r.mod.path ≠ "example.com/src") →
        dropRequire
          ⟨⟨"example.com/dest", ""⟩, [⟨⟨"example.com/src", "v0.9.0"⟩, false⟩],
            [⟨⟨"example.com/src", "v0.9.0"⟩, ⟨"local/src", ""⟩⟩], []⟩
          "example.com/src" =
        ⟨⟨"example.com/dest", ""⟩, [⟨⟨"example.com/src", "v0.9.0"⟩, false⟩],
          [⟨⟨"example.com/src", "v0.9.0"⟩, ⟨"local/src", ""⟩⟩], []⟩) ∧
      ((∀ r ∈ [(⟨⟨"example.com/src", "v0.9.0"⟩, ⟨"local/src", ""⟩⟩ : Replace)],
          r.old.path ≠ "example.com/src") →
        (([(⟨⟨"example.com/src", "v0.9.0"⟩, ⟨"local/src", ""⟩⟩ : Replace)].filter
            fun r => r.old.path = "example.com/src").map (fun r => r.old)).foldl
          (fun d v => dropReplace d v.path v.version)
          ⟨⟨"example.com/dest", ""⟩, [⟨⟨"example.com/src", "v0.9.0"⟩, false⟩],
            [⟨⟨"example.com/src", "v0.9.0"⟩, ⟨"local/src", ""⟩⟩], []⟩ =
        ⟨⟨"example.com/dest", ""⟩, [⟨⟨"example.com/src", "v0.9.0"⟩, false⟩],
          [⟨⟨"example.com/src", "v0.9.0"⟩, ⟨"local/src", ""⟩⟩], []⟩)) :=
  ⟨by decide, by decide,
    self_reference_stripped
      ⟨⟨"example.com/dest", ""⟩, [⟨⟨"example.com/src", "v0.9.0"⟩, false⟩],
        [⟨⟨"example.com/src", "v0.9.0"⟩, ⟨"local/src", ""⟩⟩], []⟩
      ⟨⟨"example.com/src", ""⟩, [⟨⟨"example.com/a", "v1.0.0"⟩, false⟩], [], []⟩
      false
      ⟨⟨"example.com/dest", ""⟩, [⟨⟨"example.com/a", "v1.0.0"⟩, false⟩], [], []⟩
      (by decide) (by decide) rfl⟩

theorem scanReplace_miss (R : Replace) :
    ∀ (l : List Replace),
      (∀ r ∈ l, R.old.string ≠ r.old.string ∧ R.old.path ≠ r.old.path) →
      scanReplace R l = .ok false := by
  intro l
  induction l with
  | nil => intro _; rfl
  | cons a rest ih =>
    intro h
    obtain ⟨h1, h2⟩ := h a (List.mem_cons_self a rest)
    rw [scanReplace, if_neg h1, if_neg fun hc => h2 hc.1]
    exact ih fun r hr => h r (List.mem_cons_of_mem _ hr)

theorem scanReplace_found (R : Replace) :
    ∀ (pre rest : List Replace),
      (∀ r ∈ pre, R.old.string ≠ r.old.string ∧ R.old.path ≠ r.old.path) →
      scanReplace R (pre ++ R :: rest) = .ok true := by
  intro pre
  induction pre with
  | nil =>
    intro rest _
    rw [List.nil_append, scanReplace, if_pos rfl]
  | cons a pre ih =>
    intro rest h
    obtain ⟨h1, h2⟩ := h a (List.mem_cons_self a pre)
    rw [List.cons_append, scanReplace, if_neg h1, if_neg fun hc => h2 hc.1]
    exact ih rest fun r hr => h r (List.mem_cons_of_mem _ hr)

theorem scanRequire_found (S : Require) (fo : Bool) :
    ∀ (pre rest : List Require),
      (∀ r ∈ pre, S.mod.string ≠ r.mod.string ∧ S.mod.path ≠ r.mod.path) →
      scanRequire S fo (pre ++ S :: rest) = .ok (pre ++ S :: rest, true) := by
  intro pre
  induction pre with
  | nil =>
    intro rest _
    rw [List.nil_append, scanRequire, if_pos rfl]
  | cons a pre ih =>
    intro rest h
    obtain ⟨h1, h2⟩ := h a (List.mem_cons_self a pre)
    rw [List.cons_append, scanRequire, if_neg h1, if_neg h2,
      ih rest fun r hr => h r (List.mem_cons_of_mem _ hr)]

theorem addReplaceLoop_skip (o n : ModVersion) :
    ∀ (l : List Replace) (need : Bool), (∀ r ∈ l, r.old.path ≠ o.path) →
      addReplaceLoop o n l need = (l, need) := by
  intro l
  induction l with
  | nil => intro need _; rfl
  | cons a rest ih =>
    intro need h
    rw [addReplaceLoop, if_neg fun hc => h a (List.mem_cons_self a rest) hc.1,
      ih need fun r hr => h r (List.mem_cons_of_mem _ hr)]

theorem addReplace_append (f : ModFile) (op ov np nv : String)
    (h : ∀ r ∈ f.replace, r.old.path ≠ op) :
    addReplace f op ov np nv =
      { f with replace := f.replace ++ [⟨⟨op, ov⟩, ⟨np, nv⟩⟩] } := by
  unfold addReplace
  rw [addReplaceLoop_skip ⟨op, ov⟩ ⟨np, nv⟩ f.replace true h]
  rfl

theorem cleanup_noop (f : ModFile)
    (h1 : ∀ r ∈ f.require, r.mod.path ≠ "")
    (h2 : ∀ r ∈ f.replace, r.old.path ≠ "")
    (h3 : ∀ x ∈ f.exclude, x.mod.path ≠ "") : cleanup f = f := by
  unfold cleanup
  rw [List.filter_eq_self.mpr fun r hr => by simpa using h1 r hr,
    List.filter_eq_self.mpr fun r hr => by simpa using h2 r hr,
    List.filter_eq_self.mpr fun x hx => by simpa using h3 x hx]

/-- C9: additions are idempotent. For a source manifest (module `m`) whose
single requirement, replacement and exclusion are all absent by path from
the destination, the first merge appends exactly one corresponding entry to
each section, and running the same merge again on the merged result is a
no-op. Stated for well-formed manifests: module paths are nonempty,
contain no `@`, and the source does not require or replace its own
module. -/
theorem addition_idempotent (df : ModFile) (m : ModVersion) (S : Require) (R : Replace)
    (E : Exclude) (fo : Bool)
    (hfS : '@' ∉ S.mod.path.data) (hfR : '@' ∉ R.old.path.data) (hfE : '@' ∉ E.mod.path.data)
    (hfreq : ∀ r ∈ df.require, '@' ∉ r.mod.path.data)
    (hfrep : ∀ r ∈ df.replace, '@' ∉ r.old.path.data)
    (hfexc : ∀ x ∈ df.exclude, '@' ∉ x.mod.path.data)
    (haS : ∀ r ∈ df.require, r.mod.path ≠ S.mod.path)
    (haR : ∀ r ∈ df.replace, r.old.path ≠ R.old.path)
    (haE : ∀ x ∈ df.exclude, x.mod.path ≠ E.mod.path)
    (hiq : ∀ r ∈ df.require, r.mod.path ≠ m.path)
    (hir : ∀ r ∈ df.replace, r.old.path ≠ m.path)
    (hSm : S.mod.path ≠ m.path) (hRm : R.old.path ≠ m.path)
    (hnq : ∀ r ∈ df.require, r.mod.path ≠ "")
    (hnr : ∀ r ∈ df.replace, r.old.path ≠ "")
    (hnx : ∀ x ∈ df.exclude, x.mod.path ≠ "")
    (hnS : S.mod.path ≠ "") (hnR : R.old.path ≠ "") (hnE : E.mod.path ≠ "") :
    runMerge df ⟨m, [S], [R], [E]⟩ fo =
      .ok { df with require := df.require ++ [S], replace := df.replace ++ [R], exclude := df.exclude ++ [E] } ∧
    runMerge { df with require := df.require ++ [S], replace := df.replace ++ [R], exclude := df.exclude ++ [E] } ⟨m, [S], [R], [E]⟩ fo =
      .ok { df with require := df.require ++ [S], replace := df.replace ++ [R], exclude := df.exclude ++ [E] } := by
  have hreqMiss : ∀ r ∈ df.require,
      S.mod.string ≠ r.mod.string ∧ S.mod.path ≠ r.mod.path :=
    fun r hr => ⟨modVersionString_ne hfS (hfreq r hr) fun hc => haS r hr hc.symm,
      fun hc => haS r hr hc.symm⟩
  have hrepMiss : ∀ r ∈ df.replace,
      R.old.string ≠ r.old.string ∧ R.old.path ≠ r.old.path :=
    fun r hr => ⟨modVersionString_ne hfR (hfrep r hr) fun hc => haR r hr hc.symm,
      fun hc => haR r hr hc.symm⟩
  have hcr : ∀ r ∈ df.require ++ [S], r.mod.path ≠ "" := by
    intro r hr
    rcases List.mem_append.mp hr with h | h
    · exact hnq r h
    · rw [List.mem_singleton.mp h]; exact hnS
  have hcp : ∀ r ∈ df.replace ++ [R], r.old.path ≠ "" := by
    intro r hr
    rcases List.mem_append.mp hr with h | h
    · exact hnr r h
    · rw [List.mem_singleton.mp h]; exact hnR
  have hcx : ∀ x ∈ df.exclude ++ [E], x.mod.path ≠ "" := by
    intro x hx
    rcases List.mem_append.mp hx with h | h
    · exact hnx x h
    · rw [List.mem_singleton.mp h]; exact hnE
  have hiq2 : ∀ r ∈ df.require ++ [S], r.mod.path ≠ m.path := by
    intro r hr
    rcases List.mem_append.mp hr with h | h
    · exact hiq r h
    · rw [List.mem_singleton.mp h]; exact hSm
  have hir2 : ∀ r ∈ df.replace ++ [R], r.old.path ≠ m.path := by
    intro r hr
    rcases List.mem_append.mp hr with h | h
    · exact hir r h
    · rw [List.mem_singleton.mp h]; exact hRm
  have hA : mergeRequires df ⟨m, [S], [R], [E]⟩ fo =
      .ok { df with require := df.require ++ [S] } := by
    unfold mergeRequires
    dsimp only
    rw [dropRequire_noop hiq, mergeRequiresLoop,
      scanRequire_miss S fo df.require hreqMiss]
    rfl
  have hB : mergeReplacements { df with require := df.require ++ [S] }
        ⟨m, [S], [R], [E]⟩ =
      .ok { df with require := df.require ++ [S], replace := df.replace ++ [R] } := by
    unfold mergeReplacements
    dsimp only
    have hnilB : (df.replace.filter fun r => r.old.path = m.path) = [] :=
      List.filter_eq_nil_iff.mpr fun a ha => by simpa using hir a ha
    rw [hnilB]
    dsimp only [List.map_nil, List.foldl_nil]
    rw [mergeReplacementsLoop, scanReplace_miss R df.replace hrepMiss]
    dsimp only
    rw [addReplace_append { df with require := df.require ++ [S] }
      R.old.path R.old.version R.new.path R.new.version haR]
    rfl
  have hC : mergeExcludes
        { df with require := df.require ++ [S], replace := df.replace ++ [R] }
        ⟨m, [S], [R], [E]⟩ =
      .ok { df with require := df.require ++ [S], replace := df.replace ++ [R], exclude := df.exclude ++ [E] } := by
    unfold mergeExcludes
    dsimp only
    rw [mergeExcludesLoop]
    have hany1 : (df.exclude.any fun destE => E.mod.string = destE.mod.string) = false := by
      rw [List.any_eq_false]
      intro x hx
      simpa using modVersionString_ne hfE (hfexc x hx) fun hc => haE x hx hc.symm
    rw [if_neg (by simp [hany1])]
    have haddE : addExclude
          { df with require := df.require ++ [S], replace := df.replace ++ [R] }
          E.mod.path E.mod.version =
        { df with require := df.require ++ [S], replace := df.replace ++ [R], exclude := df.exclude ++ [E] } := by
      unfold addExclude
      rw [if_neg (by
        simp only [List.any_eq_true, not_exists, decide_eq_true_eq]
        intro x
        rintro ⟨hx, hco, -⟩
        exact haE x hx hco)]
    rw [haddE]
    rfl
  have hfirst : runMerge df ⟨m, [S], [R], [E]⟩ fo =
      .ok { df with require := df.require ++ [S], replace := df.replace ++ [R], exclude := df.exclude ++ [E] } := by
    unfold runMerge
    rw [hA]
    dsimp only
    rw [hB]
    dsimp only
    rw [hC]
    dsimp only
    rw [cleanup_noop _ hcr hcp hcx]
  have hA2 : mergeRequires
        { df with require := df.require ++ [S], replace := df.replace ++ [R], exclude := df.exclude ++ [E] } ⟨m, [S], [R], [E]⟩ fo =
      .ok { df with require := df.require ++ [S], replace := df.replace ++ [R], exclude := df.exclude ++ [E] } := by
    unfold mergeRequires
    dsimp only
    rw [dropRequire_noop (f := { df with require := df.require ++ [S], replace := df.replace ++ [R], exclude := df.exclude ++ [E] }) hiq2,
      mergeRequiresLoop]
    dsimp only
    rw [scanRequire_found S fo df.require [] hreqMiss]
    rfl
  have hB2 : mergeReplacements
        { df with require := df.require ++ [S], replace := df.replace ++ [R], exclude := df.exclude ++ [E] } ⟨m, [S], [R], [E]⟩ =
      .ok { df with require := df.require ++ [S], replace := df.replace ++ [R], exclude := df.exclude ++ [E] } := by
    unfold mergeReplacements
    dsimp only
    have hnil2 : ((df.replace ++ [R]).filter fun r => r.old.path = m.path) = [] :=
      List.filter_eq_nil_iff.mpr fun a ha => by simpa using hir2 a ha
    rw [hnil2]
    dsimp only [List.map_nil, List.foldl_nil]
    rw [mergeReplacementsLoop, scanReplace_found R df.replace [] hrepMiss]
    rfl
  have hC2 : mergeExcludes
        { df with require := df.require ++ [S], replace := df.replace ++ [R], exclude := df.exclude ++ [E] } ⟨m, [S], [R], [E]⟩ =
      .ok { df with require := df.require ++ [S], replace := df.replace ++ [R], exclude := df.exclude ++ [E] } := by
    unfold mergeExcludes
    dsimp only
    rw [mergeExcludesLoop]
    have hany3 : ((df.exclude ++ [E]).any fun destE => E.mod.string = destE.mod.string)
        = true := by
      rw [List.any_eq_true]
      exact ⟨E, List.mem_append_right _ (List.mem_cons_self E []), by simp⟩
    rw [if_pos hany3]
    rfl
  have hsecond : runMerge
        { df with require := df.require ++ [S], replace := df.replace ++ [R], exclude := df.exclude ++ [E] } ⟨m, [S], [R], [E]⟩ fo =
      .ok { df with require := df.require ++ [S], replace := df.replace ++ [R], exclude := df.exclude ++ [E] } := by
    unfold runMerge
    rw [hA2]
    dsimp only
    rw [hB2]
    dsimp only
    rw [hC2]
    dsimp only
    rw [cleanup_noop _ hcr hcp hcx]
  exact ⟨hfirst, hsecond⟩

/-- Witness for C9: destination requires only `example.com/d`; the source
(module `example.com/src`) brings requirement `example.com/a`, replacement
`example.com/b -> local/b` and exclusion `example.com/c`, all absent from
the destination; the first merge appends each once and the second merge
changes nothing. -/
theorem addition_idempotent_witness :
    (∀ r ∈ [(⟨⟨"example.com/d", "v1.0.0"⟩, false⟩ : Require)],
      r.mod.path ≠ "example.com/a") ∧
    (∀ r ∈ ([] : List Replace), r.old.path ≠ "example.com/b") ∧
    (∀ x ∈ ([] : List Exclude), x.mod.path ≠ "example.com/c") ∧
    (runMerge
      ⟨⟨"example.com/dest", ""⟩, [⟨⟨"example.com/d", "v1.0.0"⟩, false⟩], [], []⟩
      ⟨⟨"example.com/src", ""⟩, [⟨⟨"example.com/a", "v1.0.0"⟩, false⟩],
        [⟨⟨"example.com/b", "v1.0.0"⟩, ⟨"local/b", ""⟩⟩], [⟨⟨"example.com/c", "v1.0.0"⟩⟩]⟩
      false =
      .ok ⟨⟨"example.com/dest", ""⟩,
        [⟨⟨"example.com/d", "v1.0.0"⟩, false⟩, ⟨⟨"example.com/a", "v1.0.0"⟩, false⟩],
        [⟨⟨"example.com/b", "v1.0.0"⟩, ⟨"local/b", ""⟩⟩],
        [⟨⟨"example.com/c", "v1.0.0"⟩⟩]⟩ ∧
    runMerge
      ⟨⟨"example.com/dest", ""⟩,
        [⟨⟨"example.com/d", "v1.0.0"⟩, false⟩, ⟨⟨"example.com/a", "v1.0.0"⟩, false⟩],
        [⟨⟨"example.com/b", "v1.0.0"⟩, ⟨"local/b", ""⟩⟩],
        [⟨⟨"example.com/c", "v1.0.0"⟩⟩]⟩
      ⟨⟨"example.com/src", ""⟩, [⟨⟨"example.com/a", "v1.0.0"⟩, false⟩],
        [⟨⟨"example.com/b", "v1.0.0"⟩, ⟨"local/b", ""⟩⟩], [⟨⟨"example.com/c", "v1.0.0"⟩⟩]⟩
      false =
      .ok ⟨⟨"example.com/dest", ""⟩,
        [⟨⟨"example.com/d", "v1.0.0"⟩, false⟩, ⟨⟨"example.com/a", "v1.0.0"⟩, false⟩],
        [⟨⟨"example.com/b", "v1.0.0"⟩, ⟨"local/b", ""⟩⟩],
        [⟨⟨"example.com/c", "v1.0.0"⟩⟩]⟩) :=
  ⟨by decide, by decide, by decide,
    addition_idempotent
      ⟨⟨"example.com/dest", ""⟩, [⟨⟨"example.com/d", "v1.0.0"⟩, false⟩], [], []⟩
      ⟨"example.com/src", ""⟩
      ⟨⟨"example.com/a", "v1.0.0"⟩, false⟩
      ⟨⟨"example.com/b", "v1.0.0"⟩, ⟨"local/b", ""⟩⟩
      ⟨⟨"example.com/c", "v1.0.0"⟩⟩
      false
      (by decide) (by decide) (by decide) (by decide) (by decide) (by decide)
      (by decide) (by decide) (by decide) (by decide) (by decide) (by decide)
      (by decide) (by decide) (by decide) (by decide) (by decide) (by decide)
      (by decide)⟩

end Modtransplant
